import Mathlib

/-!
# Cdist: distance from a point to a circle (2D) or a sphere (3D)

Shallow embedding of `fun/f_cdist.go`.

* The embedded functions are generic in the type `α` of the Go `float64` values
  and in its arithmetic; the square root `math.Sqrt` is passed to them as the
  argument `sqrt`. They are used at two types:
  - `α = ℝ` with `sqrt = Real.sqrt`: exact real arithmetic (no rounding, no NaN,
    no infinities), for the properties that are stated in exact arithmetic;
  - `α = F64` with `sqrt = F64.sqrt`: the `float64` values with the rounding of
    each operation, for what the program returns on `float64` inputs.
* Go slices are lists. An index expression `s[i]` panics when `i` is out of
  range; the embedded functions return `none` in that case.
* `Init` has a pointer receiver and assigns `o.r` inside its loop, so the
  embedded `Init` returns the error (if any) together with the state of the
  receiver after the call.
-/

namespace GoslFun

/-- Modelled from the spec: the parameter type `Prm` of package `fun` is declared
outside `f_cdist.go`. A parameter is a named scalar value; `Init` reads the name as
`p.N` and the value as `p.V`. The auxiliary fields are not used by `Cdist`. -/
structure Prm (α : Type) where
  N : String
  V : α

/-- Modelled from the spec: `Prms` is an ordered list of parameters. -/
abbrev Prms (α : Type) := List (Prm α)

/-- The source struct `Cdist`: centre `xc` and radius `r`. -/
structure Cdist (α : Type) where
  xc : List α
  r : α

/-- The two errors `Init` can return (the `chk.Err` calls of the source), with the
value formatted into the message. -/
inductive InitErr (α : Type) where
  | invalidParameter (name : String) : InitErr α
  | radiusTooSmall (rtol : α) : InitErr α

/-- The local variables of `Init`: `var xc, yc, zc float64` and `is3d`. -/
structure InitVars (α : Type) where
  xc : α
  yc : α
  zc : α
  is3d : Bool

section Defs

variable {α : Type} [Zero α] [Add α] [Sub α] [Mul α] [Div α] [LT α]
  [∀ a b : α, Decidable (a < b)] [OfScientific α]

/-- The value `new(Cdist)` returned by the allocator: nil centre, zero radius. -/
def Cdist.new : Cdist α := { xc := [], r := 0 }

/-- The initial values of the local variables of `Init`. -/
def InitVars.zero : InitVars α := { xc := 0, yc := 0, zc := 0, is3d := false }

/-- The loop `for _, p := range prms { switch p.N ... }` of `Init`. The result is
the name that reached the `default` case (if any), the local variables and the
receiver at the point where the loop was left. -/
def Cdist.InitLoop :
    Prms α → InitVars α → Cdist α → Option String × InitVars α × Cdist α
  | [], l, o => (none, l, o)
  | p :: ps, l, o =>
    if p.N = "xc" then Cdist.InitLoop ps { l with xc := p.V } o
    else if p.N = "yc" then Cdist.InitLoop ps { l with yc := p.V } o
    else if p.N = "zc" then Cdist.InitLoop ps { l with zc := p.V, is3d := true } o
    else if p.N = "r" then Cdist.InitLoop ps l { o with r := p.V }
    else (some p.N, l, o)

/-- The tolerance `rtol := 1e-10` of `Init`. -/
def rtol : α := 1e-10

/-- The method `Init`: returns the error, or `none` on success, and the receiver
after the call. -/
def Cdist.Init (o : Cdist α) (prms : Prms α) : Option (InitErr α) × Cdist α :=
  match Cdist.InitLoop prms InitVars.zero o with
  | (some n, _, o1) => (some (InitErr.invalidParameter n), o1)
  | (none, l, o1) =>
    if o1.r < rtol then (some (InitErr.radiusTooSmall rtol), o1)
    else if l.is3d then (none, { o1 with xc := [l.xc, l.yc, l.zc] })
    else (none, { o1 with xc := [l.xc, l.yc] })

/-- The method `F`: `none` stands for an index-out-of-range panic. -/
def Cdist.F (sqrt : α → α) (o : Cdist α) (_t : α) (x : List α) : Option α := do
  let x0 ← x[0]?
  let c0 ← o.xc[0]?
  let x1 ← x[1]?
  let c1 ← o.xc[1]?
  let f := (x0 - c0) * (x0 - c0) + (x1 - c1) * (x1 - c1)
  let f ← if x.length = 3 then do
      let x2 ← x[2]?
      let c2 ← o.xc[2]?
      pure (f + (x2 - c2) * (x2 - c2))
    else pure f
  pure (sqrt f - o.r)

/-- The method `G`. -/
def Cdist.G (_o : Cdist α) (_t : α) (_x : List α) : α := 0

/-- The method `H`. -/
def Cdist.H (_o : Cdist α) (_t : α) (_x : List α) : α := 0

/-- The assignment `v[i] = a` on a slice: `none` when `i` is out of range. -/
def setIdx (v : List α) (i : Nat) (a : α) : Option (List α) :=
  if i < v.length then some (v.set i a) else none

/-- The method `Grad`: returns the contents of the slice `v` after the call, or
`none` for an index-out-of-range panic. The third component is computed from
`o.xc[1]`, as in the source. -/
def Cdist.Grad (sqrt : α → α) (o : Cdist α) (v : List α) (_t : α) (x : List α) :
    Option (List α) := do
  let x0 ← x[0]?
  let c0 ← o.xc[0]?
  let x1 ← x[1]?
  let c1 ← o.xc[1]?
  let d := (x0 - c0) * (x0 - c0) + (x1 - c1) * (x1 - c1)
  let d ← if x.length = 3 then do
      let x2 ← x[2]?
      let c2 ← o.xc[2]?
      pure (d + (x2 - c2) * (x2 - c2))
    else pure d
  let d := sqrt d
  let v ← setIdx v 0 ((x0 - c0) / d)
  let v ← setIdx v 1 ((x1 - c1) / d)
  if x.length = 3 then do
    let x2 ← x[2]?
    let c1 ← o.xc[1]?
    setIdx v 2 ((x2 - c1) / d)
  else pure v

end Defs

/-- The squared Euclidean distance of the specification: the sum over `i < len(x)`
of `(x[i] - c[i])^2`. -/
def sqDist {α : Type} [LinearOrderedField α] (x c : List α) : α :=
  ∑ i in Finset.range x.length, (x.getD i 0 - c.getD i 0) ^ 2

/-- The value of the last parameter of the list named `name`, or `d` when no
parameter has that name. -/
def lastVal {α : Type} (name : String) (prms : Prms α) (d : α) : α :=
  match (prms.filter (fun p => p.N = name)).getLast? with
  | some p => p.V
  | none => d

/-- The names `Init` recognises. -/
def recognised (n : String) : Prop := n = "xc" ∨ n = "yc" ∨ n = "zc" ∨ n = "r"

instance (n : String) : Decidable (recognised n) := by
  unfold recognised; infer_instance

/-- Modelled from the spec: the package-level table `allocators` is declared
outside `f_cdist.go`. It maps a string key to a zero-argument constructor of a
function instance; here the instances are of the `Cdist` kind, the only kind in
this file. A key that is not registered maps to `none`. -/
abbrev Allocators (α : Type) := String → Option (Unit → Cdist α)

/-- The function `init` of the file: `allocators["cdist"] = func() Func { return
new(Cdist) }`, as an update of the table it is given. -/
def init {α : Type} [Zero α] (allocators : Allocators α) : Allocators α :=
  fun key => if key = "cdist" then some (fun _ => Cdist.new) else allocators key

/-- The parameters `Init` goes through before it leaves its loop: the longest
prefix of the list whose names are all recognised. -/
def processed {α : Type} (prms : Prms α) : Prms α :=
  prms.takeWhile (fun p => decide (recognised p.N))

/-! ## The `float64` values

Each arithmetic operation of Go on `float64` returns the exact result rounded to
the nearest `float64` value (ties to the even significand), an infinity on
overflow, and follows the usual rules on infinities and NaN. Division is not
modelled: its result at a zero divisor depends on the sign of the zero, which
this model does not keep. -/

/-- A `float64` value: a finite value, kept as the exact rational it stands for,
an infinity (`negative` tells its sign) or NaN. The two zeros are not told
apart. -/
inductive F64 where
  | fin (q : ℚ) : F64
  | inf (negative : Bool) : F64
  | nan : F64

namespace F64

/-- The nearest integer, the even one at a tie. -/
def roundEven (x : ℚ) : ℤ :=
  if x - ⌊x⌋ < 1 / 2 then ⌊x⌋
  else if 1 / 2 < x - ⌊x⌋ then ⌊x⌋ + 1
  else if ⌊x⌋ % 2 = 0 then ⌊x⌋ else ⌊x⌋ + 1

/-- The spacing of the `float64` values around `q`: 53 significant bits, and
the exponent not below -1022. -/
def ulp (q : ℚ) : ℚ := 2 ^ (max (Int.log 2 |q|) (-1022) - 52)

/-- The `float64` value an exact result is rounded to: the nearest value, the
one with an even significand at a tie, an infinity from `2^1024` on. -/
def rnd (q : ℚ) : F64 :=
  if q = 0 then fin 0
  else if 2 ^ 1024 ≤ |(roundEven (q / ulp q) : ℚ) * ulp q| then inf (decide (q < 0))
  else fin (roundEven (q / ulp q) * ulp q)

/-- Negation. -/
def neg : F64 → F64
  | fin a => fin (-a)
  | inf s => inf (!s)
  | nan => nan

/-- Addition. -/
def add : F64 → F64 → F64
  | fin a, fin b => rnd (a + b)
  | fin _, inf t => inf t
  | inf s, fin _ => inf s
  | inf s, inf t => if s = t then inf s else nan
  | nan, _ => nan
  | _, nan => nan

/-- Multiplication. -/
def mul : F64 → F64 → F64
  | fin a, fin b => rnd (a * b)
  | fin a, inf t => if a = 0 then nan else inf (xor (decide (a < 0)) t)
  | inf s, fin b => if b = 0 then nan else inf (xor s (decide (b < 0)))
  | inf s, inf t => inf (xor s t)
  | nan, _ => nan
  | _, nan => nan

/-- The comparison `<`: false when an operand is NaN. -/
def lt : F64 → F64 → Prop
  | fin a, fin b => a < b
  | fin _, inf t => t = false
  | inf s, fin _ => s = true
  | inf s, inf t => s = true ∧ t = false
  | nan, _ => False
  | _, nan => False

instance : Zero F64 := ⟨fin 0⟩
instance : Add F64 := ⟨add⟩
/-- Subtraction: `a - b` is `a + (-b)`. -/
instance : Sub F64 := ⟨fun a b => add a (neg b)⟩
instance : Mul F64 := ⟨mul⟩
instance : LT F64 := ⟨lt⟩

instance (a b : F64) : Decidable (a < b) := by
  cases a <;> cases b <;> simp only [LT.lt, lt] <;> infer_instance

/-- A decimal constant, rounded to the nearest `float64` value. -/
instance : OfScientific F64 :=
  ⟨fun m s e => rnd (if s then (m : ℚ) / 10 ^ e else (m : ℚ) * 10 ^ e)⟩

/-- The function `math.Sqrt`: the exact square root rounded to the nearest
`float64` value. For a positive `q` with `4^h ≤ q < 4^(h+1)` the root lies in
the binade of `2^h`, where the values are `n * 2^(h-52)` with
`2^52 ≤ n < 2^53`. -/
def sqrt : F64 → F64
  | nan => nan
  | inf s => if s then nan else inf false
  | fin q =>
    if q < 0 then nan
    else if q = 0 then fin 0
    else
      let u : ℚ := 2 ^ (Int.log 2 q / 2 - 52)
      let m : ℚ := q / u ^ 2
      let n : ℕ := Nat.sqrt ⌊m⌋₊
      if m < ((n : ℚ) + 1 / 2) ^ 2 then fin (n * u)
      else if ((n : ℚ) + 1 / 2) ^ 2 < m then fin ((n + 1) * u)
      else if n % 2 = 0 then fin (n * u) else fin ((n + 1) * u)

end F64


/-! ## Helper lemmas -/

section Lemmas

variable {α : Type}

theorem lastVal_nil (name : String) (d : α) : lastVal name ([] : Prms α) d = d := by
  simp [lastVal]

theorem lastVal_cons (name : String) (p : Prm α) (ps : Prms α) (d : α) :
    lastVal name (p :: ps) d = lastVal name ps (if p.N = name then p.V else d) := by
  unfold lastVal
  by_cases h : p.N = name
  · simp only [h, decide_True, List.filter_cons_of_pos, if_true]
    rw [List.getLast?_cons]
    cases hq : (List.filter (fun p => decide (p.N = name)) ps).getLast? <;> simp
  · simp [h, List.filter_cons]

/-- What the loop of `Init` computes when it runs to the end of the list. -/
theorem InitLoop_none [LinearOrderedField α] (prms : Prms α) (l l1 : InitVars α)
    (o o1 : Cdist α)
    (h : Cdist.InitLoop prms l o = (none, l1, o1)) :
    (∀ p ∈ prms, recognised p.N) ∧
    l1.xc = lastVal "xc" prms l.xc ∧ l1.yc = lastVal "yc" prms l.yc ∧
    l1.zc = lastVal "zc" prms l.zc ∧
    l1.is3d = (l.is3d || prms.any (fun p => p.N = "zc")) ∧
    o1.r = lastVal "r" prms o.r ∧ o1.xc = o.xc := by
  induction prms generalizing l o with
  | nil =>
    simp only [Cdist.InitLoop, Prod.mk.injEq, true_and] at h
    obtain ⟨rfl, rfl⟩ := h
    simp [lastVal_nil]
  | cons p ps ih =>
    rw [Cdist.InitLoop] at h
    simp only [lastVal_cons]
    split_ifs at h with h1 h2 h3 h4
    · have := ih _ _ h
      simp_all [recognised]
    · have := ih _ _ h
      simp_all [recognised]
    · have := ih _ _ h
      simp_all [recognised]
    · have := ih _ _ h
      simp_all [recognised]
    · simp at h

/-- The tolerance is positive. -/
theorem rtol_pos : (0 : ℝ) < rtol := by
  unfold rtol; norm_num

/-- A successful `Init`: the loop ran to the end, the radius it left in the
receiver is not below the tolerance, and the centre was built from the local
variables. -/
theorem Init_ok [LinearOrderedField α] (o o1 : Cdist α) (prms : Prms α)
    (h : Cdist.Init o prms = (none, o1)) :
    ∃ l o2, Cdist.InitLoop prms InitVars.zero o = (none, l, o2) ∧ ¬ o2.r < rtol ∧
      o1.r = o2.r ∧ o1.xc = if l.is3d then [l.xc, l.yc, l.zc] else [l.xc, l.yc] := by
  unfold Cdist.Init at h
  split at h
  · simp at h
  · rename_i l o2 hloop
    refine ⟨l, o2, hloop, ?_⟩
    split_ifs at h with h1 h2
    · simp at h
    · simp only [Prod.mk.injEq, true_and] at h
      subst h
      simp [h1, h2]
    · simp only [Prod.mk.injEq, true_and] at h
      subst h
      simp [h1, h2]

/-- After a successful `Init` the centre has two or three components and the
radius is not below the tolerance. -/
theorem Init_ok_shape [LinearOrderedField α] (o o1 : Cdist α) (prms : Prms α)
    (h : Cdist.Init o prms = (none, o1)) :
    (o1.xc.length = 2 ∨ o1.xc.length = 3) ∧ ¬ o1.r < rtol := by
  obtain ⟨l, o2, -, hr, hr2, hxc⟩ := Init_ok o o1 prms h
  refine ⟨?_, by rw [hr2]; exact hr⟩
  rw [hxc]
  split_ifs <;> simp

/-- The method `F` on a two-dimensional instance. -/
theorem F_2d [Add α] [Sub α] [Mul α] (sqrt : α → α) (c0 c1 r t x0 x1 : α) :
    Cdist.F sqrt ⟨[c0, c1], r⟩ t [x0, x1]
      = some (sqrt ((x0 - c0) * (x0 - c0) + (x1 - c1) * (x1 - c1)) - r) := by
  simp [Cdist.F]

/-- The method `F` on a three-dimensional instance. -/
theorem F_3d [LinearOrderedField α] (sqrt : α → α) (c0 c1 c2 r t x0 x1 x2 : α) :
    Cdist.F sqrt ⟨[c0, c1, c2], r⟩ t [x0, x1, x2]
      = some (sqrt ((x0 - c0) * (x0 - c0) + (x1 - c1) * (x1 - c1)
          + (x2 - c2) * (x2 - c2)) - r) := by
  simp [Cdist.F]

/-- A list of length two. -/
theorem length_two {β : Type} (x : List β) (h : x.length = 2) : ∃ a b, x = [a, b] := by
  match x, h with
  | [a, b], _ => exact ⟨a, b, rfl⟩

/-- A list of length three. -/
theorem length_three {β : Type} (x : List β) (h : x.length = 3) :
    ∃ a b c, x = [a, b, c] := by
  match x, h with
  | [a, b, c], _ => exact ⟨a, b, c, rfl⟩

/-- On a centre of two or three components and a point of the same length, `F`
returns the square root of the squared distance minus the radius. -/
theorem F_eq_sqDist [LinearOrderedField α] (sqrt : α → α) (o : Cdist α) (t : α) (x : List α)
    (hc : o.xc.length = 2 ∨ o.xc.length = 3) (hx : x.length = o.xc.length) :
    Cdist.F sqrt o t x = some (sqrt (sqDist x o.xc) - o.r) := by
  obtain ⟨c, r⟩ := o
  rcases hc with hc | hc
  · obtain ⟨c0, c1, rfl⟩ := length_two c hc
    obtain ⟨x0, x1, rfl⟩ := length_two x (by simpa using hx)
    rw [F_2d]
    simp [sqDist, Finset.sum_range_succ, pow_two]
  · obtain ⟨c0, c1, c2, rfl⟩ := length_three c hc
    obtain ⟨x0, x1, x2, rfl⟩ := length_three x (by simpa using hx)
    rw [F_3d]
    simp [sqDist, Finset.sum_range_succ, pow_two]

/-- The loop of `Init` stops at the first name it does not recognise. -/
theorem InitLoop_invalid (prms : Prms α) (l : InitVars α) (o : Cdist α)
    (h : ∃ p ∈ prms, ¬ recognised p.N) :
    ∃ pre p post, prms = pre ++ p :: post ∧ (∀ q ∈ pre, recognised q.N) ∧
      ¬ recognised p.N ∧ (Cdist.InitLoop prms l o).1 = some p.N := by
  induction prms generalizing l o with
  | nil => simp at h
  | cons a as ih =>
    by_cases ha : recognised a.N
    · have hex : ∃ p ∈ as, ¬ recognised p.N := by
        obtain ⟨p, hp, hn⟩ := h
        rcases List.mem_cons.mp hp with rfl | hp
        · exact absurd ha hn
        · exact ⟨p, hp, hn⟩
      have key : ∀ l1 o1, ∃ pre p post, a :: as = pre ++ p :: post ∧
          (∀ q ∈ pre, recognised q.N) ∧ ¬ recognised p.N ∧
          (Cdist.InitLoop as l1 o1).1 = some p.N := by
        intro l1 o1
        obtain ⟨pre, p, post, he, hpre, hp, hl⟩ := ih l1 o1 hex
        refine ⟨a :: pre, p, post, by rw [he]; rfl, ?_, hp, hl⟩
        intro q hq
        rcases List.mem_cons.mp hq with rfl | hq
        · exact ha
        · exact hpre q hq
      rw [Cdist.InitLoop]
      split_ifs with h1 h2 h3 h4
      · exact key _ _
      · exact key _ _
      · exact key _ _
      · exact key _ _
      · exact absurd ha (by simp [recognised, h1, h2, h3, h4])
    · refine ⟨[], a, as, rfl, by simp, ha, ?_⟩
      have hn : a.N ≠ "xc" ∧ a.N ≠ "yc" ∧ a.N ≠ "zc" ∧ a.N ≠ "r" := by
        simpa [recognised, not_or] using ha
      rw [Cdist.InitLoop]
      simp [hn.1, hn.2.1, hn.2.2.1, hn.2.2.2]

/-- The loop of `Init` runs to the end of a list of recognised names. -/
theorem InitLoop_recognised (prms : Prms α) (l : InitVars α) (o : Cdist α)
    (h : ∀ p ∈ prms, recognised p.N) : (Cdist.InitLoop prms l o).1 = none := by
  induction prms generalizing l o with
  | nil => rfl
  | cons a as ih =>
    have has : ∀ p ∈ as, recognised p.N := fun p hp => h p (List.mem_cons_of_mem _ hp)
    have ha : recognised a.N := h a (List.mem_cons_self _ _)
    rw [Cdist.InitLoop]
    split_ifs with h1 h2 h3 h4
    · exact ih _ _ has
    · exact ih _ _ has
    · exact ih _ _ has
    · exact ih _ _ has
    · exact absurd ha (by simp [recognised, h1, h2, h3, h4])

/-- The error returned by `Init` when the loop stops at an unrecognised name. -/
theorem Init_of_loop_some [LinearOrderedField α] (o : Cdist α) (prms : Prms α) (n : String)
    (h : (Cdist.InitLoop prms InitVars.zero o).1 = some n) :
    (Cdist.Init o prms).1 = some (InitErr.invalidParameter n) := by
  unfold Cdist.Init
  split
  · rename_i m _ o2 heq
    rw [heq] at h
    simp only [Option.some.injEq] at h
    rw [h]
  · rename_i l o2 heq
    rw [heq] at h
    simp at h

/-- `Init` on a fresh instance and a list of recognised names returns the
radius-validation error exactly when the last value of "r" (zero when there is
none) is below the tolerance. -/
theorem Init_radius_error_iff [LinearOrderedField α] (prms : Prms α)
    (h : ∀ p ∈ prms, recognised p.N) :
    (Cdist.Init (Cdist.new : Cdist α) prms).1 = some (InitErr.radiusTooSmall rtol) ↔
      lastVal "r" prms 0 < rtol := by
  have hl := InitLoop_recognised prms InitVars.zero (Cdist.new : Cdist α) h
  unfold Cdist.Init
  split
  · rename_i m _ o2 heq
    rw [heq] at hl
    simp at hl
  · rename_i l o2 heq
    obtain ⟨-, -, -, -, -, hr, -⟩ := InitLoop_none prms _ _ _ _ heq
    simp only [Cdist.new] at hr
    rw [← hr]
    split_ifs with h1 h2
    · simp [h1]
    · simp [h1]
    · simp [h1]

/-- The method `Grad` on a three-dimensional instance and a slice of three
components. -/
theorem Grad_3d [LinearOrderedField α] (sqrt : α → α) (c0 c1 c2 r t x0 x1 x2 v0 v1 v2 : α) :
    Cdist.Grad sqrt ⟨[c0, c1, c2], r⟩ [v0, v1, v2] t [x0, x1, x2]
      = some [(x0 - c0) / sqrt ((x0 - c0) * (x0 - c0) + (x1 - c1) * (x1 - c1)
                + (x2 - c2) * (x2 - c2)),
              (x1 - c1) / sqrt ((x0 - c0) * (x0 - c0) + (x1 - c1) * (x1 - c1)
                + (x2 - c2) * (x2 - c2)),
              (x2 - c1) / sqrt ((x0 - c0) * (x0 - c0) + (x1 - c1) * (x1 - c1)
                + (x2 - c2) * (x2 - c2))] := by
  simp [Cdist.Grad, setIdx]

/-- The centre after a successful `Init`, by whether a parameter is named "zc". -/
theorem Init_dimension_aux [LinearOrderedField α] (o o1 : Cdist α) (prms : Prms α)
    (hinit : Cdist.Init o prms = (none, o1)) :
    (o1.xc.length = 3 ↔ ∃ p ∈ prms, p.N = "zc") ∧
    ((∃ p ∈ prms, p.N = "zc") →
      o1.xc = [lastVal "xc" prms 0, lastVal "yc" prms 0, lastVal "zc" prms 0]) ∧
    ((¬ ∃ p ∈ prms, p.N = "zc") →
      o1.xc = [lastVal "xc" prms 0, lastVal "yc" prms 0]) := by
  obtain ⟨l, o2, hloop, -, -, hxc⟩ := Init_ok o o1 prms hinit
  obtain ⟨-, h1, h2, h3, h4, -, -⟩ := InitLoop_none prms _ _ _ _ hloop
  have hany : l.is3d = true ↔ ∃ p ∈ prms, p.N = "zc" := by
    rw [h4]
    simp [InitVars.zero]
  simp only [InitVars.zero] at h1 h2 h3
  by_cases hz : ∃ p ∈ prms, p.N = "zc"
  · have h3d : l.is3d = true := hany.mpr hz
    rw [h3d] at hxc
    simp only [if_true] at hxc
    refine ⟨by simp [hxc, hz], fun _ => by rw [hxc, h1, h2, h3], fun hn => absurd hz hn⟩
  · have h2d : l.is3d = false := by
      cases hb : l.is3d
      · rfl
      · exact absurd (hany.mp hb) hz
    rw [h2d] at hxc
    simp only [Bool.false_eq_true, if_false] at hxc
    refine ⟨by simp [hxc, hz], fun h => absurd h hz, fun _ => by rw [hxc, h1, h2]⟩

theorem sqrt_four : Real.sqrt 4 = 2 := by
  rw [show (4 : ℝ) = 2 ^ 2 by norm_num]
  exact Real.sqrt_sq (by norm_num)

theorem sqrt_nine : Real.sqrt 9 = 3 := by
  rw [show (9 : ℝ) = 3 ^ 2 by norm_num]
  exact Real.sqrt_sq (by norm_num)

/-- The receiver when the loop of `Init` is left: the centre is untouched and the
radius is the last "r" value among the parameters gone through. -/
theorem InitLoop_state (prms : Prms α) (l : InitVars α) (o : Cdist α) :
    (Cdist.InitLoop prms l o).2.2.xc = o.xc ∧
    (Cdist.InitLoop prms l o).2.2.r = lastVal "r" (processed prms) o.r := by
  induction prms generalizing l o with
  | nil => simp [Cdist.InitLoop, processed, lastVal_nil]
  | cons p ps ih =>
    rw [Cdist.InitLoop]
    split_ifs with h1 h2 h3 h4
    · have hp : processed (p :: ps) = p :: processed ps := by
        simp [processed, recognised, h1]
      rw [hp, lastVal_cons]
      have := ih { l with xc := p.V } o
      simpa [h1] using this
    · have hp : processed (p :: ps) = p :: processed ps := by
        simp [processed, recognised, h2]
      rw [hp, lastVal_cons]
      have := ih { l with yc := p.V } o
      simpa [h2] using this
    · have hp : processed (p :: ps) = p :: processed ps := by
        simp [processed, recognised, h3]
      rw [hp, lastVal_cons]
      have := ih { l with zc := p.V, is3d := true } o
      simpa [h3] using this
    · have hp : processed (p :: ps) = p :: processed ps := by
        simp [processed, recognised, h4]
      rw [hp, lastVal_cons]
      have := ih l { o with r := p.V }
      simpa [h4] using this
    · have hp : processed (p :: ps) = [] := by
        simp [processed, recognised, h1, h2, h3, h4]
      simp [hp, lastVal_nil]

/-- When `Init` returns an error, the receiver is as the loop left it. -/
theorem Init_error_state [LinearOrderedField α] (o : Cdist α) (prms : Prms α)
    (h : (Cdist.Init o prms).1 ≠ none) :
    (Cdist.Init o prms).2 = (Cdist.InitLoop prms InitVars.zero o).2.2 := by
  unfold Cdist.Init at h ⊢
  split
  · rename_i heq
    rw [heq]
  · rename_i l o2 heq
    rw [heq] at h
    simp only at h
    split_ifs at h with h1 h2
    · simp [h1, heq]
    · exact absurd rfl h
    · exact absurd rfl h

/-- All parameters are gone through when every name is recognised. -/
theorem processed_of_recognised (prms : Prms α) (h : ∀ p ∈ prms, recognised p.N) :
    processed prms = prms := by
  unfold processed
  rw [List.takeWhile_eq_self_iff]
  intro p hp
  simpa using h p hp

/-- Without a parameter named `name`, the default is returned. -/
theorem lastVal_absent (name : String) (prms : Prms α) (d : α)
    (h : ∀ p ∈ prms, p.N ≠ name) : lastVal name prms d = d := by
  induction prms generalizing d with
  | nil => exact lastVal_nil name d
  | cons p ps ih =>
    rw [lastVal_cons, if_neg (h p (List.mem_cons_self _ _))]
    exact ih d (fun q hq => h q (List.mem_cons_of_mem _ hq))

/-- The method `Grad` on a two-dimensional instance and a slice of at least two
components: the first two are assigned, the others are kept. -/
theorem Grad_2d_gen [LinearOrderedField α] (sqrt : α → α) (c0 c1 r t x0 x1 v0 v1 : α)
    (vs : List α) :
    Cdist.Grad sqrt ⟨[c0, c1], r⟩ (v0 :: v1 :: vs) t [x0, x1]
      = some ((x0 - c0) / sqrt ((x0 - c0) * (x0 - c0) + (x1 - c1) * (x1 - c1))
          :: (x1 - c1) / sqrt ((x0 - c0) * (x0 - c0) + (x1 - c1) * (x1 - c1))
          :: vs) := by
  simp [Cdist.Grad, setIdx]

/-- The method `Grad` on a three-dimensional instance and a slice of at least
three components: the first three are assigned, the others are kept. -/
theorem Grad_3d_gen [LinearOrderedField α] (sqrt : α → α)
    (c0 c1 c2 r t x0 x1 x2 v0 v1 v2 : α) (vs : List α) :
    Cdist.Grad sqrt ⟨[c0, c1, c2], r⟩ (v0 :: v1 :: v2 :: vs) t [x0, x1, x2]
      = some ((x0 - c0) / sqrt ((x0 - c0) * (x0 - c0) + (x1 - c1) * (x1 - c1)
                + (x2 - c2) * (x2 - c2))
          :: (x1 - c1) / sqrt ((x0 - c0) * (x0 - c0) + (x1 - c1) * (x1 - c1)
                + (x2 - c2) * (x2 - c2))
          :: (x2 - c1) / sqrt ((x0 - c0) * (x0 - c0) + (x1 - c1) * (x1 - c1)
                + (x2 - c2) * (x2 - c2))
          :: vs) := by
  simp [Cdist.Grad, setIdx]

/-- A list of length at least two. -/
theorem length_ge_two {β : Type} (v : List β) (h : 2 ≤ v.length) :
    ∃ a b vs, v = a :: b :: vs := by
  match v, h with
  | a :: b :: vs, _ => exact ⟨a, b, vs, rfl⟩

/-- A list of length at least three. -/
theorem length_ge_three {β : Type} (v : List β) (h : 3 ≤ v.length) :
    ∃ a b c vs, v = a :: b :: c :: vs := by
  match v, h with
  | a :: b :: c :: vs, _ => exact ⟨a, b, c, vs, rfl⟩

/-- On a centre of two or three components, a point of the same length and a
slice at least as long, `Grad` returns, keeps the length of the slice and keeps
every component from index `len(x)` on. -/
theorem Grad_frame [LinearOrderedField α] (sqrt : α → α) (o : Cdist α) (t : α)
    (x v : List α) (hc : o.xc.length = 2 ∨ o.xc.length = 3)
    (hx : x.length = o.xc.length) (hv : x.length ≤ v.length) :
    ∃ out, Cdist.Grad sqrt o v t x = some out ∧ out.length = v.length ∧
      ∀ i, x.length ≤ i → out[i]? = v[i]? := by
  obtain ⟨c, r⟩ := o
  rcases hc with hc | hc
  · obtain ⟨c0, c1, rfl⟩ := length_two c hc
    obtain ⟨x0, x1, rfl⟩ := length_two x (by simpa using hx)
    obtain ⟨v0, v1, vs, rfl⟩ := length_ge_two v (by simpa using hv)
    refine ⟨_, Grad_2d_gen sqrt c0 c1 r t x0 x1 v0 v1 vs, by simp, ?_⟩
    intro i hi
    obtain ⟨j, rfl⟩ : ∃ j, i = j + 2 := ⟨i - 2, by simp at hi; omega⟩
    simp
  · obtain ⟨c0, c1, c2, rfl⟩ := length_three c hc
    obtain ⟨x0, x1, x2, rfl⟩ := length_three x (by simpa using hx)
    obtain ⟨v0, v1, v2, vs, rfl⟩ := length_ge_three v (by simpa using hv)
    refine ⟨_, Grad_3d_gen sqrt c0 c1 c2 r t x0 x1 x2 v0 v1 v2 vs, by simp, ?_⟩
    intro i hi
    obtain ⟨j, rfl⟩ : ∃ j, i = j + 3 := ⟨i - 3, by simp at hi; omega⟩
    simp

/-- The triangle inequality for the Euclidean length in three coordinates. -/
theorem sqrt_add_le (b1 b2 b3 e1 e2 e3 : ℝ) :
    Real.sqrt ((b1 + e1) ^ 2 + (b2 + e2) ^ 2 + (b3 + e3) ^ 2)
      ≤ Real.sqrt (b1 ^ 2 + b2 ^ 2 + b3 ^ 2) + Real.sqrt (e1 ^ 2 + e2 ^ 2 + e3 ^ 2) := by
  have hb : 0 ≤ b1 ^ 2 + b2 ^ 2 + b3 ^ 2 := by positivity
  have he : 0 ≤ e1 ^ 2 + e2 ^ 2 + e3 ^ 2 := by positivity
  have hB := Real.sq_sqrt hb
  have hE := Real.sq_sqrt he
  have hcs : (b1 * e1 + b2 * e2 + b3 * e3) ^ 2
      ≤ (b1 ^ 2 + b2 ^ 2 + b3 ^ 2) * (e1 ^ 2 + e2 ^ 2 + e3 ^ 2) := by
    nlinarith [sq_nonneg (b1 * e2 - b2 * e1), sq_nonneg (b1 * e3 - b3 * e1),
      sq_nonneg (b2 * e3 - b3 * e2)]
  have hBE : b1 * e1 + b2 * e2 + b3 * e3
      ≤ Real.sqrt (b1 ^ 2 + b2 ^ 2 + b3 ^ 2) * Real.sqrt (e1 ^ 2 + e2 ^ 2 + e3 ^ 2) := by
    rw [← Real.sqrt_mul hb]
    exact le_trans (le_abs_self _) (Real.abs_le_sqrt hcs)
  rw [Real.sqrt_le_iff]
  refine ⟨add_nonneg (Real.sqrt_nonneg _) (Real.sqrt_nonneg _), ?_⟩
  nlinarith [hB, hE, hBE]

/-- The Euclidean length in three coordinates is 1-Lipschitz. -/
theorem abs_sqrt_sub_sqrt_le (a1 a2 a3 b1 b2 b3 : ℝ) :
    |Real.sqrt (a1 ^ 2 + a2 ^ 2 + a3 ^ 2) - Real.sqrt (b1 ^ 2 + b2 ^ 2 + b3 ^ 2)|
      ≤ Real.sqrt ((a1 - b1) ^ 2 + (a2 - b2) ^ 2 + (a3 - b3) ^ 2) := by
  have h1 := sqrt_add_le b1 b2 b3 (a1 - b1) (a2 - b2) (a3 - b3)
  have h2 := sqrt_add_le a1 a2 a3 (b1 - a1) (b2 - a2) (b3 - a3)
  have e1 : (b1 - a1) ^ 2 + (b2 - a2) ^ 2 + (b3 - a3) ^ 2
      = (a1 - b1) ^ 2 + (a2 - b2) ^ 2 + (a3 - b3) ^ 2 := by ring
  rw [e1] at h2
  simp only [add_sub_cancel] at h1 h2
  rw [abs_le]
  constructor <;> linarith

/-- The distance to a centre of two or three components is 1-Lipschitz. -/
theorem sqDist_lipschitz (x y c : List ℝ) (hc : c.length = 2 ∨ c.length = 3)
    (hx : x.length = c.length) (hy : y.length = c.length) :
    |Real.sqrt (sqDist x c) - Real.sqrt (sqDist y c)| ≤ Real.sqrt (sqDist x y) := by
  rcases hc with hc | hc
  · obtain ⟨c0, c1, rfl⟩ := length_two c hc
    obtain ⟨x0, x1, rfl⟩ := length_two x (by simpa using hx)
    obtain ⟨y0, y1, rfl⟩ := length_two y (by simpa using hy)
    have h := abs_sqrt_sub_sqrt_le (x0 - c0) (x1 - c1) 0 (y0 - c0) (y1 - c1) 0
    have e : (x0 - c0 - (y0 - c0)) ^ 2 + (x1 - c1 - (y1 - c1)) ^ 2 + (0 - 0) ^ 2
        = (x0 - y0) ^ 2 + (x1 - y1) ^ 2 := by ring
    rw [e] at h
    simpa [sqDist, Finset.sum_range_succ] using h
  · obtain ⟨c0, c1, c2, rfl⟩ := length_three c hc
    obtain ⟨x0, x1, x2, rfl⟩ := length_three x (by simpa using hx)
    obtain ⟨y0, y1, y2, rfl⟩ := length_three y (by simpa using hy)
    have h := abs_sqrt_sub_sqrt_le (x0 - c0) (x1 - c1) (x2 - c2) (y0 - c0) (y1 - c1)
      (y2 - c2)
    have e : (x0 - c0 - (y0 - c0)) ^ 2 + (x1 - c1 - (y1 - c1)) ^ 2
        + (x2 - c2 - (y2 - c2)) ^ 2 = (x0 - y0) ^ 2 + (x1 - y1) ^ 2 + (x2 - y2) ^ 2 := by
      ring
    rw [e] at h
    simpa [sqDist, Finset.sum_range_succ] using h

/-- The squared distance is not negative. -/
theorem sqDist_nonneg (x c : List ℝ) : 0 ≤ sqDist x c := by
  unfold sqDist
  exact Finset.sum_nonneg (fun i _ => sq_nonneg _)

/-- The squared distance to a centre of two or three components vanishes only at
the centre. -/
theorem sqDist_eq_zero_iff (x c : List ℝ) (hc : c.length = 2 ∨ c.length = 3)
    (hx : x.length = c.length) : sqDist x c = 0 ↔ x = c := by
  rcases hc with hc | hc
  · obtain ⟨c0, c1, rfl⟩ := length_two c hc
    obtain ⟨x0, x1, rfl⟩ := length_two x (by simpa using hx)
    simp only [sqDist, List.length_cons, List.length_nil, Finset.sum_range_succ,
      Finset.sum_range_zero, zero_add, List.getD_cons_zero, List.getD_cons_succ,
      List.cons.injEq, and_true]
    constructor
    · intro h
      have h0 : (x0 - c0) ^ 2 = 0 := by nlinarith [sq_nonneg (x0 - c0), sq_nonneg (x1 - c1)]
      have h1 : (x1 - c1) ^ 2 = 0 := by nlinarith [sq_nonneg (x0 - c0), sq_nonneg (x1 - c1)]
      exact ⟨sub_eq_zero.mp (pow_eq_zero_iff (by norm_num) |>.mp h0),
        sub_eq_zero.mp (pow_eq_zero_iff (by norm_num) |>.mp h1)⟩
    · rintro ⟨rfl, rfl⟩
      simp
  · obtain ⟨c0, c1, c2, rfl⟩ := length_three c hc
    obtain ⟨x0, x1, x2, rfl⟩ := length_three x (by simpa using hx)
    simp only [sqDist, List.length_cons, List.length_nil, Finset.sum_range_succ,
      Finset.sum_range_zero, zero_add, List.getD_cons_zero, List.getD_cons_succ,
      List.cons.injEq, and_true]
    constructor
    · intro h
      have h0 : (x0 - c0) ^ 2 = 0 := by
        nlinarith [sq_nonneg (x0 - c0), sq_nonneg (x1 - c1), sq_nonneg (x2 - c2)]
      have h1 : (x1 - c1) ^ 2 = 0 := by
        nlinarith [sq_nonneg (x0 - c0), sq_nonneg (x1 - c1), sq_nonneg (x2 - c2)]
      have h2 : (x2 - c2) ^ 2 = 0 := by
        nlinarith [sq_nonneg (x0 - c0), sq_nonneg (x1 - c1), sq_nonneg (x2 - c2)]
      exact ⟨sub_eq_zero.mp (pow_eq_zero_iff (by norm_num) |>.mp h0),
        sub_eq_zero.mp (pow_eq_zero_iff (by norm_num) |>.mp h1),
        sub_eq_zero.mp (pow_eq_zero_iff (by norm_num) |>.mp h2)⟩
    · rintro ⟨rfl, rfl, rfl⟩
      simp

/-- The binary exponent of a positive rational, from the binade it lies in. -/
theorem log2_eq (q : ℚ) (e : ℤ) (h1 : 2 ^ e ≤ q) (h2 : q < 2 ^ (e + 1)) :
    Int.log 2 q = e := by
  have hq : 0 < q := lt_of_lt_of_le (by positivity) h1
  have a : e ≤ Int.log 2 q := by
    rw [← Int.zpow_le_iff_le_log (by norm_num) hq]
    simpa using h1
  have b : Int.log 2 q < e + 1 := by
    rw [← Int.lt_zpow_iff_log_lt (by norm_num) hq]
    simpa using h2
  omega

/-- The nearest integer, when it is nearer than one half. -/
theorem roundEven_eq (x : ℚ) (n : ℤ) (h1 : (n : ℚ) - 1 / 2 < x) (h2 : x < n + 1 / 2) :
    F64.roundEven x = n := by
  unfold F64.roundEven
  by_cases hx : (n : ℚ) ≤ x
  · have hf : ⌊x⌋ = n := by
      rw [Int.floor_eq_iff]
      constructor
      · exact hx
      · linarith
    rw [hf, if_pos (by linarith)]
  · have hf : ⌊x⌋ = n - 1 := by
      rw [Int.floor_eq_iff]
      push_cast
      constructor <;> linarith
    have hx2 : x < n := lt_of_not_le hx
    rw [hf]
    push_cast
    rw [if_neg (by linarith), if_pos (by linarith)]
    ring

/-- The rounding of `q`, from its binade `2^e ≤ |q| < 2^(e+1)` and the integer
`n` nearest to `q / 2^(e-52)`. -/
theorem rnd_eq (q : ℚ) (e n : ℤ) (hq : q ≠ 0) (h1 : 2 ^ e ≤ |q|) (h2 : |q| < 2 ^ (e + 1))
    (he : -1022 ≤ e) (hn1 : (n : ℚ) - 1 / 2 < q / 2 ^ (e - 52))
    (hn2 : q / 2 ^ (e - 52) < n + 1 / 2) (hfin : |(n : ℚ) * 2 ^ (e - 52)| < 2 ^ 1024) :
    F64.rnd q = F64.fin (n * 2 ^ (e - 52)) := by
  have hu : F64.ulp q = 2 ^ (e - 52) := by
    unfold F64.ulp
    rw [log2_eq |q| e h1 h2, max_eq_left he]
  unfold F64.rnd
  rw [if_neg hq, hu, roundEven_eq _ n hn1 hn2, if_neg (not_le.mpr hfin)]

/-- The rounded square root of `q`, from `4^h ≤ q < 4^(h+1)` and an integer `n`
with `n ≤ sqrt q / 2^(h-52) < n + 1/2`. -/
theorem sqrt_eq (q : ℚ) (h : ℤ) (n : ℕ) (h1 : 2 ^ (2 * h) ≤ q) (h2 : q < 2 ^ (2 * h + 2))
    (hn1 : (n : ℚ) ^ 2 ≤ q / (2 ^ (h - 52)) ^ 2)
    (hn2 : q / (2 ^ (h - 52)) ^ 2 < ((n : ℚ) + 1 / 2) ^ 2) :
    F64.sqrt (F64.fin q) = F64.fin (n * 2 ^ (h - 52)) := by
  have hq : 0 < q := lt_of_lt_of_le (by positivity) h1
  have hlog : Int.log 2 q / 2 = h := by
    have a : 2 * h ≤ Int.log 2 q := by
      rw [← Int.zpow_le_iff_le_log (by norm_num) hq]
      simpa using h1
    have b : Int.log 2 q < 2 * h + 2 := by
      rw [← Int.lt_zpow_iff_log_lt (by norm_num) hq]
      simpa using h2
    omega
  have hm : 0 ≤ q / (2 ^ (h - 52)) ^ 2 := by positivity
  have hs : Nat.sqrt ⌊q / (2 ^ (h - 52)) ^ 2⌋₊ = n := by
    symm
    rw [Nat.eq_sqrt]
    constructor
    · rw [Nat.le_floor_iff hm]
      push_cast
      rw [← pow_two]
      exact hn1
    · rw [Nat.floor_lt hm]
      push_cast
      have : ((n : ℚ) + 1 / 2) ^ 2 ≤ ((n : ℚ) + 1) * ((n : ℚ) + 1) := by
        have hn : (0 : ℚ) ≤ n := Nat.cast_nonneg n
        nlinarith
      linarith
  unfold F64.sqrt
  simp only [hlog, hs]
  rw [if_neg (not_lt.mpr hq.le), if_neg (ne_of_gt hq), if_pos hn2]

/-- Subtraction of finite values. -/
theorem F64_sub_fin (a b : ℚ) : F64.fin a - F64.fin b = F64.rnd (a - b) := by
  show F64.add (F64.fin a) (F64.neg (F64.fin b)) = _
  simp [F64.add, F64.neg, sub_eq_add_neg]

/-- Addition of finite values. -/
theorem F64_add_fin (a b : ℚ) : F64.fin a + F64.fin b = F64.rnd (a + b) := rfl

/-- Multiplication of finite values. -/
theorem F64_mul_fin (a b : ℚ) : F64.fin a * F64.fin b = F64.rnd (a * b) := rfl

/-- Comparison of finite values. -/
theorem F64_lt_fin (a b : ℚ) : F64.fin a < F64.fin b ↔ a < b := Iff.rfl

theorem rnd_zero : F64.rnd 0 = F64.fin 0 := by
  simp [F64.rnd]

theorem rnd_one : F64.rnd 1 = F64.fin 1 := by
  rw [rnd_eq 1 0 4503599627370496 (by norm_num) (by norm_num) (by norm_num) (by norm_num)
    (by norm_num) (by norm_num) (by norm_num [abs_of_pos])]
  norm_num

/-- A decimal constant as a `float64` value. -/
theorem F64_ofScientific (m : ℕ) (s : Bool) (e : ℕ) :
    (OfScientific.ofScientific m s e : F64)
      = F64.rnd (if s then (m : ℚ) / 10 ^ e else (m : ℚ) * 10 ^ e) := rfl

/-- The constant `1e-10` as a `float64` value. -/
theorem rtol_F64 : (rtol : F64) = F64.fin (7737125245533627 / 2 ^ 86) := by
  have h : (rtol : F64) = F64.rnd (1 / 10 ^ 10) := by
    rw [rtol, F64_ofScientific, if_pos rfl, Nat.cast_one]
  rw [h, rnd_eq _ (-34) 7737125245533627 (by norm_num)
    (by norm_num [abs_of_pos]) (by norm_num [abs_of_pos]) (by norm_num) (by norm_num)
    (by norm_num) (by norm_num [abs_of_pos])]
  norm_num

/-- `Init` with xc=0, yc=0, r=1 on a fresh instance, on `float64` values. -/
theorem Init_F64_unit :
    Cdist.Init (Cdist.new : Cdist F64)
        [⟨"xc", F64.fin 0⟩, ⟨"yc", F64.fin 0⟩, ⟨"r", F64.fin 1⟩]
      = (none, ⟨[F64.fin 0, F64.fin 0], F64.fin 1⟩) := by
  have h : ¬ (F64.fin 1 < (rtol : F64)) := by
    rw [rtol_F64, F64_lt_fin]
    norm_num
  have hz : (0 : F64) = F64.fin 0 := rfl
  simp [Cdist.Init, Cdist.InitLoop, Cdist.new, InitVars.zero, h, hz]

theorem rnd_two_pow_neg_26 : F64.rnd (1 / 2 ^ 26) = F64.fin (1 / 2 ^ 26) := by
  rw [rnd_eq _ (-26) 4503599627370496 (by norm_num) (by norm_num [abs_of_pos])
    (by norm_num [abs_of_pos]) (by norm_num) (by norm_num) (by norm_num)
    (by norm_num [abs_of_pos])]
  norm_num

theorem rnd_two_pow_neg_52 : F64.rnd (1 / 2 ^ 52) = F64.fin (1 / 2 ^ 52) := by
  rw [rnd_eq _ (-52) 4503599627370496 (by norm_num) (by norm_num [abs_of_pos])
    (by norm_num [abs_of_pos]) (by norm_num) (by norm_num) (by norm_num)
    (by norm_num [abs_of_pos])]
  norm_num

theorem rnd_one_add_two_pow_neg_52 :
    F64.rnd (1 + 1 / 2 ^ 52) = F64.fin (1 + 1 / 2 ^ 52) := by
  rw [rnd_eq _ 0 4503599627370497 (by norm_num) (by norm_num [abs_of_pos])
    (by norm_num [abs_of_pos]) (by norm_num) (by norm_num) (by norm_num)
    (by norm_num [abs_of_pos])]
  norm_num

theorem rnd_two_pow_neg_60 : F64.rnd (1 / 2 ^ 60) = F64.fin (1 / 2 ^ 60) := by
  rw [rnd_eq _ (-60) 4503599627370496 (by norm_num) (by norm_num [abs_of_pos])
    (by norm_num [abs_of_pos]) (by norm_num) (by norm_num) (by norm_num)
    (by norm_num [abs_of_pos])]
  norm_num

theorem rnd_two_pow_neg_120 : F64.rnd (1 / 2 ^ 120) = F64.fin (1 / 2 ^ 120) := by
  rw [rnd_eq _ (-120) 4503599627370496 (by norm_num) (by norm_num [abs_of_pos])
    (by norm_num [abs_of_pos]) (by norm_num) (by norm_num) (by norm_num)
    (by norm_num [abs_of_pos])]
  norm_num

/-- The exact difference `2^-60 - 1` is rounded to `-1`. -/
theorem rnd_two_pow_neg_60_sub_one : F64.rnd (1 / 2 ^ 60 - 1) = F64.fin (-1) := by
  rw [rnd_eq (1 / 2 ^ 60 - 1) (-1) (-9007199254740992) (by norm_num)
    (by norm_num [abs_of_neg]) (by norm_num [abs_of_neg]) (by norm_num) (by norm_num)
    (by norm_num) (by norm_num [abs_of_neg])]
  norm_num

/-- The square root of `1 + 2^-52` is rounded to 1. -/
theorem sqrt_one_add_two_pow_neg_52 : F64.sqrt (F64.fin (1 + 1 / 2 ^ 52)) = F64.fin 1 := by
  rw [sqrt_eq (1 + 1 / 2 ^ 52) 0 4503599627370496 (by norm_num) (by norm_num) (by norm_num)
    (by norm_num)]
  norm_num

/-- The square root of `2^-120` is `2^-60`. -/
theorem sqrt_two_pow_neg_120 : F64.sqrt (F64.fin (1 / 2 ^ 120)) = F64.fin (1 / 2 ^ 60) := by
  rw [sqrt_eq (1 / 2 ^ 120) (-60) 4503599627370496 (by norm_num) (by norm_num) (by norm_num)
    (by norm_num)]
  norm_num

/-- The value of `F` on `float64` values at the point `[1, 2^-26]`, for the centre
`[0, 0]` and the radius 1. -/
theorem F_F64_outside (t : F64) :
    Cdist.F F64.sqrt ⟨[F64.fin 0, F64.fin 0], F64.fin 1⟩ t [F64.fin 1, F64.fin (1 / 2 ^ 26)]
      = some (F64.fin 0) := by
  have e1 : (1 / 2 ^ 26 : ℚ) * (1 / 2 ^ 26) = 1 / 2 ^ 52 := by norm_num
  rw [F_2d]
  simp only [F64_sub_fin, sub_zero, rnd_one, rnd_two_pow_neg_26, F64_mul_fin, mul_one, e1,
    rnd_two_pow_neg_52, F64_add_fin, rnd_one_add_two_pow_neg_52, sqrt_one_add_two_pow_neg_52,
    sub_self, rnd_zero]

/-- The value of `F` on `float64` values at the point `[2^-60, 0]`, for the centre
`[0, 0]` and the radius 1. -/
theorem F_F64_near_centre (t : F64) :
    Cdist.F F64.sqrt ⟨[F64.fin 0, F64.fin 0], F64.fin 1⟩ t [F64.fin (1 / 2 ^ 60), F64.fin 0]
      = some (F64.fin (-1)) := by
  have e1 : (1 / 2 ^ 60 : ℚ) * (1 / 2 ^ 60) = 1 / 2 ^ 120 := by norm_num
  rw [F_2d]
  simp only [F64_sub_fin, sub_zero, rnd_zero, rnd_two_pow_neg_60, F64_mul_fin, mul_zero, e1,
    rnd_two_pow_neg_120, F64_add_fin, add_zero, sqrt_two_pow_neg_120,
    rnd_two_pow_neg_60_sub_one]

end Lemmas

/-! ## The claims -/

/-- C1: on a successfully initialised instance and a point `x` with as many
components as the centre, `F(t, x)` is the square root of the sum over `i < len(x)`
of `(x[i] - c[i])^2`, minus the radius; the value is the same at every time. -/
theorem Cdist_F_value (o o1 : Cdist ℝ) (prms : Prms ℝ)
    (hinit : Cdist.Init o prms = (none, o1)) (t : ℝ) (x : List ℝ)
    (hx : x.length = o1.xc.length) :
    Cdist.F Real.sqrt o1 t x = some (Real.sqrt (sqDist x o1.xc) - o1.r) ∧
    ∀ t1 : ℝ, Cdist.F Real.sqrt o1 t1 x = Cdist.F Real.sqrt o1 t x := by
  have hs := (Init_ok_shape o o1 prms hinit).1
  refine ⟨F_eq_sqDist _ _ _ _ hs hx, fun t1 => ?_⟩
  rw [F_eq_sqDist _ _ _ _ hs hx, F_eq_sqDist _ _ _ _ hs hx]

theorem Cdist_F_value_witness :
    Cdist.Init (Cdist.new : Cdist ℝ) [⟨"xc", 0⟩, ⟨"yc", 0⟩, ⟨"r", 1⟩]
      = (none, ⟨[0, 0], 1⟩) ∧
    ([0, 3] : List ℝ).length = (⟨[0, 0], 1⟩ : Cdist ℝ).xc.length ∧
    (Cdist.F Real.sqrt ⟨[0, 0], 1⟩ 5 [0, 3]
        = some (Real.sqrt (sqDist [0, 3] (⟨[0, 0], 1⟩ : Cdist ℝ).xc)
            - (⟨[0, 0], 1⟩ : Cdist ℝ).r) ∧
      ∀ t1 : ℝ, Cdist.F Real.sqrt ⟨[0, 0], 1⟩ t1 [0, 3]
        = Cdist.F Real.sqrt ⟨[0, 0], 1⟩ 5 [0, 3]) :=
  have h : Cdist.Init (Cdist.new : Cdist ℝ) [⟨"xc", 0⟩, ⟨"yc", 0⟩, ⟨"r", 1⟩]
      = (none, ⟨[0, 0], 1⟩) := by
    simp [Cdist.Init, Cdist.InitLoop, Cdist.new, InitVars.zero, rtol]
    norm_num
  ⟨h, rfl, Cdist_F_value Cdist.new ⟨[0, 0], 1⟩ _ h 5 [0, 3] rfl⟩

/-- C9 as stated fails on `float64` values: `Init` with xc=0, yc=0, r=1 succeeds,
the point `[1, 2^-26]` is strictly outside the circle (its squared distance to the
centre is `1 + 2^-52`, above `r^2 = 1`), and `F` returns 0 there, which is not
positive: `math.Sqrt` rounds the square root of `1 + 2^-52` to 1. -/
theorem F_float_zero_outside :
    ∃ o1 : Cdist F64,
      Cdist.Init (Cdist.new : Cdist F64)
          [⟨"xc", F64.fin 0⟩, ⟨"yc", F64.fin 0⟩, ⟨"r", F64.fin 1⟩] = (none, o1) ∧
      o1.xc = [F64.fin 0, F64.fin 0] ∧ o1.r = F64.fin 1 ∧
      (1 : ℚ) ^ 2 < sqDist [1, 1 / 2 ^ 26] [0, 0] ∧
      Cdist.F F64.sqrt o1 (F64.fin 0) [F64.fin 1, F64.fin (1 / 2 ^ 26)]
        = some (F64.fin 0) ∧
      ¬ (F64.fin 0 < F64.fin 0) := by
  refine ⟨_, Init_F64_unit, rfl, rfl, ?_, F_F64_outside _, ?_⟩
  · simp [sqDist, Finset.sum_range_succ]
  · rw [F64_lt_fin]
    exact lt_irrefl _

/-- C9, amended: in exact real arithmetic, on a successfully initialised instance
and a point of matching dimension, `F(t, x)` is positive when the squared distance
to the centre exceeds `r^2` and negative when it is below `r^2`. -/
theorem Cdist_F_sign (o o1 : Cdist ℝ) (prms : Prms ℝ)
    (hinit : Cdist.Init o prms = (none, o1)) (t : ℝ) (x : List ℝ)
    (hx : x.length = o1.xc.length) :
    ∃ y, Cdist.F Real.sqrt o1 t x = some y ∧
      (o1.r ^ 2 < sqDist x o1.xc → 0 < y) ∧ (sqDist x o1.xc < o1.r ^ 2 → y < 0) := by
  obtain ⟨hs, hr⟩ := Init_ok_shape o o1 prms hinit
  have hrpos : 0 < o1.r := lt_of_lt_of_le rtol_pos (not_lt.mp hr)
  refine ⟨_, F_eq_sqDist _ _ _ _ hs hx, fun h => ?_, fun h => ?_⟩
  · exact sub_pos.mpr ((Real.lt_sqrt hrpos.le).mpr h)
  · exact sub_neg.mpr ((Real.sqrt_lt' hrpos).mpr h)

theorem Cdist_F_sign_witness :
    Cdist.Init (Cdist.new : Cdist ℝ) [⟨"xc", 0⟩, ⟨"yc", 0⟩, ⟨"r", 1⟩]
      = (none, ⟨[0, 0], 1⟩) ∧
    ([0, 3] : List ℝ).length = (⟨[0, 0], 1⟩ : Cdist ℝ).xc.length ∧
    ∃ y, Cdist.F Real.sqrt ⟨[0, 0], 1⟩ 5 [0, 3] = some y ∧
      ((⟨[0, 0], 1⟩ : Cdist ℝ).r ^ 2 < sqDist [0, 3] (⟨[0, 0], 1⟩ : Cdist ℝ).xc →
        0 < y) ∧
      (sqDist [0, 3] (⟨[0, 0], 1⟩ : Cdist ℝ).xc < (⟨[0, 0], 1⟩ : Cdist ℝ).r ^ 2 →
        y < 0) :=
  have h : Cdist.Init (Cdist.new : Cdist ℝ) [⟨"xc", 0⟩, ⟨"yc", 0⟩, ⟨"r", 1⟩]
      = (none, ⟨[0, 0], 1⟩) := by
    simp [Cdist.Init, Cdist.InitLoop, Cdist.new, InitVars.zero, rtol]
    norm_num
  ⟨h, rfl, Cdist_F_sign Cdist.new ⟨[0, 0], 1⟩ _ h 5 [0, 3] rfl⟩

/-- C10: on a successfully initialised two-dimensional instance with centre
`[xc, yc]`, `F(t, [x0, x1]) = 0` whenever `(x0-xc)^2 + (x1-yc)^2 = r^2`. -/
theorem Cdist_F_zero_on_circle (o o1 : Cdist ℝ) (prms : Prms ℝ)
    (hinit : Cdist.Init o prms = (none, o1)) (xc yc : ℝ) (h2d : o1.xc = [xc, yc])
    (t x0 x1 : ℝ) (hcirc : (x0 - xc) ^ 2 + (x1 - yc) ^ 2 = o1.r ^ 2) :
    Cdist.F Real.sqrt o1 t [x0, x1] = some 0 := by
  obtain ⟨-, hr⟩ := Init_ok_shape o o1 prms hinit
  have hrpos : 0 < o1.r := lt_of_lt_of_le rtol_pos (not_lt.mp hr)
  obtain ⟨c, r⟩ := o1
  simp only at h2d hcirc hrpos
  subst h2d
  rw [F_2d, ← pow_two, ← pow_two, hcirc, Real.sqrt_sq hrpos.le, sub_self]

theorem Cdist_F_zero_on_circle_witness :
    Cdist.Init (Cdist.new : Cdist ℝ) [⟨"xc", 1⟩, ⟨"yc", 1⟩, ⟨"r", 2⟩]
      = (none, ⟨[1, 1], 2⟩) ∧
    ((3 : ℝ) - 1) ^ 2 + ((1 : ℝ) - 1) ^ 2 = (⟨[1, 1], 2⟩ : Cdist ℝ).r ^ 2 ∧
    Cdist.F Real.sqrt ⟨[1, 1], 2⟩ 0 [3, 1] = some 0 :=
  have h : Cdist.Init (Cdist.new : Cdist ℝ) [⟨"xc", 1⟩, ⟨"yc", 1⟩, ⟨"r", 2⟩]
      = (none, ⟨[1, 1], 2⟩) := by
    simp [Cdist.Init, Cdist.InitLoop, Cdist.new, InitVars.zero, rtol]
    norm_num
  have hc : ((3 : ℝ) - 1) ^ 2 + ((1 : ℝ) - 1) ^ 2 = (⟨[1, 1], 2⟩ : Cdist ℝ).r ^ 2 := by
    norm_num
  ⟨h, hc, Cdist_F_zero_on_circle Cdist.new ⟨[1, 1], 2⟩ _ h 1 1 rfl 0 3 1 hc⟩

/-- C4: when the parameter list holds a name other than "xc", "yc", "zc", "r",
`Init` returns the invalid-parameter error, and the error carries the first such
name in list order (every parameter before it has a recognised name). -/
theorem Init_invalid_parameter (o : Cdist ℝ) (prms : Prms ℝ)
    (h : ∃ p ∈ prms, ¬ recognised p.N) :
    ∃ pre p post, prms = pre ++ p :: post ∧ (∀ q ∈ pre, recognised q.N) ∧
      ¬ recognised p.N ∧
      (Cdist.Init o prms).1 = some (InitErr.invalidParameter p.N) := by
  obtain ⟨pre, p, post, he, hpre, hp, hl⟩ := InitLoop_invalid prms InitVars.zero o h
  exact ⟨pre, p, post, he, hpre, hp, Init_of_loop_some o prms p.N hl⟩

theorem Init_invalid_parameter_witness :
    (∃ p ∈ ([⟨"xc", 1⟩, ⟨"radius", 2⟩, ⟨"foo", 3⟩] : Prms ℝ), ¬ recognised p.N) ∧
    ∃ pre p post, ([⟨"xc", 1⟩, ⟨"radius", 2⟩, ⟨"foo", 3⟩] : Prms ℝ) = pre ++ p :: post ∧
      (∀ q ∈ pre, recognised q.N) ∧ ¬ recognised p.N ∧
      (Cdist.Init (Cdist.new : Cdist ℝ) [⟨"xc", 1⟩, ⟨"radius", 2⟩, ⟨"foo", 3⟩]).1
        = some (InitErr.invalidParameter p.N) :=
  have h : ∃ p ∈ ([⟨"xc", 1⟩, ⟨"radius", 2⟩, ⟨"foo", 3⟩] : Prms ℝ), ¬ recognised p.N :=
    ⟨⟨"radius", 2⟩, by simp, by decide⟩
  ⟨h, Init_invalid_parameter Cdist.new _ h⟩

/-- C5: after a successful `Init` the centre has three components
`[xc, yc, zc]` exactly when the list holds a parameter named "zc", and two
components `[xc, yc]` otherwise; with xc=0, yc=0, zc=0, r=1 the value of `F` at
`[0, 0, 2]` is 1, and with xc=0, yc=0, r=1 the value of `F` at `[0, 3]` is 2. -/
theorem Init_dimension :
    (∀ (o o1 : Cdist ℝ) (prms : Prms ℝ), Cdist.Init o prms = (none, o1) →
      (o1.xc.length = 3 ↔ ∃ p ∈ prms, p.N = "zc") ∧
      ((∃ p ∈ prms, p.N = "zc") →
        o1.xc = [lastVal "xc" prms 0, lastVal "yc" prms 0, lastVal "zc" prms 0]) ∧
      ((¬ ∃ p ∈ prms, p.N = "zc") →
        o1.xc = [lastVal "xc" prms 0, lastVal "yc" prms 0])) ∧
    (∃ o1, Cdist.Init (Cdist.new : Cdist ℝ) [⟨"xc", 0⟩, ⟨"yc", 0⟩, ⟨"zc", 0⟩, ⟨"r", 1⟩]
        = (none, o1) ∧ ∀ t : ℝ, Cdist.F Real.sqrt o1 t [0, 0, 2] = some 1) ∧
    (∃ o1, Cdist.Init (Cdist.new : Cdist ℝ) [⟨"xc", 0⟩, ⟨"yc", 0⟩, ⟨"r", 1⟩]
        = (none, o1) ∧ ∀ t : ℝ, Cdist.F Real.sqrt o1 t [0, 3] = some 2) := by
  refine ⟨?_, ?_, ?_⟩
  · intro o o1 prms hinit
    obtain ⟨l, o2, hloop, -, -, hxc⟩ := Init_ok o o1 prms hinit
    obtain ⟨-, h1, h2, h3, h4, -, -⟩ := InitLoop_none prms _ _ _ _ hloop
    have hany : l.is3d = true ↔ ∃ p ∈ prms, p.N = "zc" := by
      rw [h4]
      simp [InitVars.zero]
    simp only [InitVars.zero] at h1 h2 h3
    by_cases hz : ∃ p ∈ prms, p.N = "zc"
    · have h3d : l.is3d = true := hany.mpr hz
      rw [h3d] at hxc
      simp only [if_true] at hxc
      refine ⟨by simp [hxc, hz], fun _ => by rw [hxc, h1, h2, h3], fun hn => absurd hz hn⟩
    · have h2d : l.is3d = false := by
        cases hb : l.is3d
        · rfl
        · exact absurd (hany.mp hb) hz
      rw [h2d] at hxc
      simp only [Bool.false_eq_true, if_false] at hxc
      refine ⟨by simp [hxc, hz], fun h => absurd h hz, fun _ => by rw [hxc, h1, h2]⟩
  · refine ⟨⟨[0, 0, 0], 1⟩, ?_, fun t => ?_⟩
    · simp [Cdist.Init, Cdist.InitLoop, Cdist.new, InitVars.zero, rtol]
      norm_num
    · rw [F_3d]
      norm_num [sqrt_four]
  · refine ⟨⟨[0, 0], 1⟩, ?_, fun t => ?_⟩
    · simp [Cdist.Init, Cdist.InitLoop, Cdist.new, InitVars.zero, rtol]
      norm_num
    · rw [F_2d]
      norm_num [sqrt_nine]

theorem Init_dimension_witness :
    Cdist.Init (Cdist.new : Cdist ℝ) [⟨"zc", 7⟩, ⟨"xc", 5⟩, ⟨"r", 1⟩, ⟨"xc", 6⟩]
      = (none, ⟨[6, 0, 7], 1⟩) ∧
    ((⟨[6, 0, 7], 1⟩ : Cdist ℝ).xc.length = 3 ↔
      ∃ p ∈ ([⟨"zc", 7⟩, ⟨"xc", 5⟩, ⟨"r", 1⟩, ⟨"xc", 6⟩] : Prms ℝ), p.N = "zc") :=
  have h : Cdist.Init (Cdist.new : Cdist ℝ) [⟨"zc", 7⟩, ⟨"xc", 5⟩, ⟨"r", 1⟩, ⟨"xc", 6⟩]
      = (none, ⟨[6, 0, 7], 1⟩) := by
    simp [Cdist.Init, Cdist.InitLoop, Cdist.new, InitVars.zero, rtol]
    norm_num
  ⟨h, (Init_dimension.1 Cdist.new ⟨[6, 0, 7], 1⟩ _ h).1⟩

/-- C3: at the radius `1e-10` itself `Init` on a fresh instance succeeds, where
the claim has it fail with the radius-validation error. -/
theorem Init_accepts_radius_at_tolerance :
    Cdist.Init (Cdist.new : Cdist ℝ) [⟨"r", 1e-10⟩] = (none, ⟨[0, 0], 1e-10⟩) := by
  simp [Cdist.Init, Cdist.InitLoop, Cdist.new, InitVars.zero, rtol]

/-- C6: `Init` succeeds on xc=1, yc=2, r=1e-10 and leaves a two-component centre
and a radius that is not greater than `1e-10`. -/
theorem Init_radius_not_above_tolerance :
    ∃ o1 : Cdist ℝ,
      Cdist.Init (Cdist.new : Cdist ℝ) [⟨"xc", 1⟩, ⟨"yc", 2⟩, ⟨"r", 1e-10⟩] = (none, o1) ∧
      o1.xc.length = 2 ∧ ¬ (1e-10 < o1.r) := by
  refine ⟨⟨[1, 2], 1e-10⟩, ?_, rfl, lt_irrefl _⟩
  simp [Cdist.Init, Cdist.InitLoop, Cdist.new, InitVars.zero, rtol]

/-- C2: on the instance initialised with xc=0, yc=0, zc=1, r=1 and the point
`[0, 0, 3]`, at distance 2 from the centre, `Grad` writes `3/2` into the third
component, where `(x[2] - center[2]) / d` is 1. -/
theorem Grad_third_component :
    ∃ o1 : Cdist ℝ,
      Cdist.Init (Cdist.new : Cdist ℝ) [⟨"xc", 0⟩, ⟨"yc", 0⟩, ⟨"zc", 1⟩, ⟨"r", 1⟩]
        = (none, o1) ∧
      o1.xc = [0, 0, 1] ∧
      Real.sqrt (sqDist [0, 0, 3] o1.xc) = 2 ∧
      Cdist.Grad Real.sqrt o1 [0, 0, 0] 0 [0, 0, 3] = some [0, 0, 3 / 2] ∧
      ((3 : ℝ) - 1) / Real.sqrt (sqDist [0, 0, 3] o1.xc) = 1 := by
  have hd : Real.sqrt (sqDist [0, 0, 3] ([0, 0, 1] : List ℝ)) = 2 := by
    have : sqDist [0, 0, 3] ([0, 0, 1] : List ℝ) = 4 := by
      simp [sqDist, Finset.sum_range_succ]
      norm_num
    rw [this, sqrt_four]
  refine ⟨⟨[0, 0, 1], 1⟩, ?_, rfl, hd, ?_, ?_⟩
  · simp [Cdist.Init, Cdist.InitLoop, Cdist.new, InitVars.zero, rtol]
    norm_num
  · rw [Grad_3d]
    norm_num [sqrt_four]
  · simp only [hd]
    norm_num

/-- C8: on the instance initialised with xc=0, yc=0, zc=1, r=1 and the point
`[0, 0, 3]`, the squares of the components written by `Grad` sum to `9/4`. -/
theorem Grad_not_unit_length :
    ∃ o1 : Cdist ℝ, ∃ out : List ℝ,
      Cdist.Init (Cdist.new : Cdist ℝ) [⟨"xc", 0⟩, ⟨"yc", 0⟩, ⟨"zc", 1⟩, ⟨"r", 1⟩]
        = (none, o1) ∧
      Cdist.Grad Real.sqrt o1 [0, 0, 0] 0 [0, 0, 3] = some out ∧
      ∑ i in Finset.range 3, (out.getD i 0) ^ 2 = 9 / 4 := by
  refine ⟨⟨[0, 0, 1], 1⟩, [0, 0, 3 / 2], ?_, ?_, ?_⟩
  · simp [Cdist.Init, Cdist.InitLoop, Cdist.new, InitVars.zero, rtol]
    norm_num
  · rw [Grad_3d]
    norm_num [sqrt_four]
  · simp [Finset.sum_range_succ]
    norm_num

/-- C7: on the instance initialised with xc=0, yc=0, zc=1, r=1 and the point
`[0, 0, 3]`, the partial derivative of `F` in the third coordinate is 1, and the
third component written by `Grad` is not that derivative. -/
theorem Grad_not_gradient :
    ∃ o1 : Cdist ℝ, ∃ out : List ℝ,
      Cdist.Init (Cdist.new : Cdist ℝ) [⟨"xc", 0⟩, ⟨"yc", 0⟩, ⟨"zc", 1⟩, ⟨"r", 1⟩]
        = (none, o1) ∧
      Cdist.Grad Real.sqrt o1 [0, 0, 0] 0 [0, 0, 3] = some out ∧
      HasDerivAt (fun s : ℝ => (Cdist.F Real.sqrt o1 0 [0, 0, s]).getD 0) 1 3 ∧
      ¬ HasDerivAt (fun s : ℝ => (Cdist.F Real.sqrt o1 0 [0, 0, s]).getD 0)
          (out.getD 2 0) 3 := by
  have hfun : (fun s : ℝ => (Cdist.F Real.sqrt ⟨[0, 0, 1], 1⟩ 0 [0, 0, s]).getD 0)
      = fun s : ℝ => Real.sqrt ((s - 1) * (s - 1)) - 1 := by
    funext s
    rw [F_3d]
    simp
  have hsq : HasDerivAt (fun s : ℝ => (s - 1) * (s - 1)) (1 * (3 - 1) + (3 - 1) * 1) 3 :=
    ((hasDerivAt_id (3 : ℝ)).sub_const 1).mul ((hasDerivAt_id (3 : ℝ)).sub_const 1)
  have hval : Real.sqrt (((3 : ℝ) - 1) * (3 - 1)) = 2 := by
    rw [show ((3 : ℝ) - 1) * (3 - 1) = 4 by norm_num, sqrt_four]
  have hne : ((3 : ℝ) - 1) * (3 - 1) ≠ 0 := by norm_num
  have hder : HasDerivAt (fun s : ℝ => Real.sqrt ((s - 1) * (s - 1)) - 1) 1 3 := by
    have h := (hsq.sqrt hne).sub_const 1
    rw [hval] at h
    convert h using 1
    norm_num
  refine ⟨⟨[0, 0, 1], 1⟩, [0, 0, 3 / 2], ?_, ?_, ?_, ?_⟩
  · simp [Cdist.Init, Cdist.InitLoop, Cdist.new, InitVars.zero, rtol]
    norm_num
  · rw [Grad_3d]
    norm_num [sqrt_four]
  · rw [hfun]
    exact hder
  · rw [hfun]
    intro h
    have := h.unique hder
    norm_num at this

/-- C11: `G(t, x)` and `H(t, x)` are zero for every instance, every time and
every point, of any length. -/
theorem Cdist_G_H_zero (o : Cdist ℝ) (t : ℝ) (x : List ℝ) :
    Cdist.G o t x = 0 ∧ Cdist.H o t x = 0 :=
  ⟨rfl, rfl⟩

/-- C12: after `init`, the table holds under "cdist" an allocator that returns an
instance with empty centre and zero radius; `Init` on it with xc=1, yc=1, r=2
succeeds; then `F(0, [1, 1]) = -2` and `Grad` at `[3, 1]` writes `[1, 0]`. -/
theorem cdist_end_to_end (allocators : Allocators ℝ) :
    ∃ alloc : Unit → Cdist ℝ, ∃ o1 : Cdist ℝ,
      init allocators "cdist" = some alloc ∧
      alloc () = ⟨[], 0⟩ ∧
      Cdist.Init (alloc ()) [⟨"xc", 1⟩, ⟨"yc", 1⟩, ⟨"r", 2⟩] = (none, o1) ∧
      Cdist.F Real.sqrt o1 0 [1, 1] = some (-2) ∧
      ∀ v0 v1 : ℝ, Cdist.Grad Real.sqrt o1 [v0, v1] 0 [3, 1] = some [1, 0] := by
  refine ⟨fun _ => Cdist.new, ⟨[1, 1], 2⟩, ?_, rfl, ?_, ?_, ?_⟩
  · simp [init]
  · simp [Cdist.Init, Cdist.InitLoop, Cdist.new, InitVars.zero, rtol]
    norm_num
  · rw [F_2d]
    norm_num
  · intro v0 v1
    simp [Cdist.Grad, setIdx]
    norm_num [sqrt_four]

/-- C13: when `Init` succeeds on a fresh instance, the radius is the value of the
last parameter named "r", and the centre coordinates are the values of the last
parameters named "xc", "yc" and (when there is one) "zc", with 0 for a missing
"xc" or "yc". -/
theorem Init_last_wins (prms : Prms ℝ) (o1 : Cdist ℝ)
    (hinit : Cdist.Init (Cdist.new : Cdist ℝ) prms = (none, o1)) :
    (∃ p, (prms.filter (fun p => p.N = "r")).getLast? = some p ∧ o1.r = p.V) ∧
    o1.xc[0]? = some (lastVal "xc" prms 0) ∧
    o1.xc[1]? = some (lastVal "yc" prms 0) ∧
    ((∃ p ∈ prms, p.N = "zc") → o1.xc[2]? = some (lastVal "zc" prms 0)) ∧
    ((¬ ∃ p ∈ prms, p.N = "zc") → o1.xc.length = 2) := by
  obtain ⟨l, o2, hloop, hr, hr2, -⟩ := Init_ok _ o1 prms hinit
  obtain ⟨-, -, -, -, -, hrl, -⟩ := InitLoop_none prms _ _ _ _ hloop
  obtain ⟨-, h3d, h2d⟩ := Init_dimension_aux _ o1 prms hinit
  refine ⟨?_, ?_, ?_, ?_, ?_⟩
  · rw [hr2, hrl]
    simp only [Cdist.new]
    rw [hrl] at hr
    simp only [Cdist.new] at hr
    unfold lastVal at hr ⊢
    cases hq : (prms.filter (fun p => decide (p.N = "r"))).getLast? with
    | none =>
      rw [hq] at hr
      exact absurd rtol_pos hr
    | some p => exact ⟨p, rfl, rfl⟩
  · by_cases hz : ∃ p ∈ prms, p.N = "zc"
    · rw [h3d hz]; rfl
    · rw [h2d hz]; rfl
  · by_cases hz : ∃ p ∈ prms, p.N = "zc"
    · rw [h3d hz]; rfl
    · rw [h2d hz]; rfl
  · intro hz
    rw [h3d hz]; rfl
  · intro hz
    rw [h2d hz]; rfl

theorem Init_last_wins_witness :
    Cdist.Init (Cdist.new : Cdist ℝ)
        [⟨"zc", 7⟩, ⟨"r", 1⟩, ⟨"xc", 5⟩, ⟨"r", 2⟩, ⟨"xc", 6⟩] = (none, ⟨[6, 0, 7], 2⟩) ∧
    ∃ p, (([⟨"zc", 7⟩, ⟨"r", 1⟩, ⟨"xc", 5⟩, ⟨"r", 2⟩, ⟨"xc", 6⟩] : Prms ℝ).filter
        (fun p => p.N = "r")).getLast? = some p ∧ (⟨[6, 0, 7], 2⟩ : Cdist ℝ).r = p.V :=
  have h : Cdist.Init (Cdist.new : Cdist ℝ)
      [⟨"zc", 7⟩, ⟨"r", 1⟩, ⟨"xc", 5⟩, ⟨"r", 2⟩, ⟨"xc", 6⟩] = (none, ⟨[6, 0, 7], 2⟩) := by
    simp [Cdist.Init, Cdist.InitLoop, Cdist.new, InitVars.zero, rtol]
    norm_num
  ⟨h, (Init_last_wins _ ⟨[6, 0, 7], 2⟩ h).1⟩

/-- C16 as stated fails: `Init` on an instance with centre `[1, 2]` and radius 1
returns the invalid-parameter error on r=5, foo=0 and the radius error on r=0, and
in both cases the radius after the call differs from the radius before. -/
theorem Init_failure_changes_radius :
    (Cdist.Init (⟨[1, 2], 1⟩ : Cdist ℝ) [⟨"r", 5⟩, ⟨"foo", 0⟩]).1
        = some (InitErr.invalidParameter "foo") ∧
    (Cdist.Init (⟨[1, 2], 1⟩ : Cdist ℝ) [⟨"r", 5⟩, ⟨"foo", 0⟩]).2.r
        ≠ (⟨[1, 2], 1⟩ : Cdist ℝ).r ∧
    (Cdist.Init (⟨[1, 2], 1⟩ : Cdist ℝ) [⟨"r", 0⟩]).1
        = some (InitErr.radiusTooSmall rtol) ∧
    (Cdist.Init (⟨[1, 2], 1⟩ : Cdist ℝ) [⟨"r", 0⟩]).2.r ≠ (⟨[1, 2], 1⟩ : Cdist ℝ).r := by
  refine ⟨?_, ?_, ?_, ?_⟩
  · simp [Cdist.Init, Cdist.InitLoop, InitVars.zero]
  · simp [Cdist.Init, Cdist.InitLoop, InitVars.zero]
  · simp [Cdist.Init, Cdist.InitLoop, InitVars.zero, rtol_pos]
  · simp [Cdist.Init, Cdist.InitLoop, InitVars.zero, rtol_pos]

/-- C16, amended: when `Init` returns an error, the centre is the same as before
the call, and the radius is the value of the last parameter named "r" among the
parameters gone through before the loop was left (the same as before the call
when there is none). -/
theorem Init_failure_state (o : Cdist ℝ) (prms : Prms ℝ)
    (herr : (Cdist.Init o prms).1 ≠ none) :
    (Cdist.Init o prms).2.xc = o.xc ∧
    (Cdist.Init o prms).2.r = lastVal "r" (processed prms) o.r := by
  rw [Init_error_state o prms herr]
  exact InitLoop_state prms InitVars.zero o

theorem Init_failure_state_witness :
    (Cdist.Init (⟨[1, 2], 1⟩ : Cdist ℝ) [⟨"r", 5⟩, ⟨"foo", 0⟩, ⟨"r", 6⟩]).1 ≠ none ∧
    (Cdist.Init (⟨[1, 2], 1⟩ : Cdist ℝ) [⟨"r", 5⟩, ⟨"foo", 0⟩, ⟨"r", 6⟩]).2.xc
      = (⟨[1, 2], 1⟩ : Cdist ℝ).xc ∧
    (Cdist.Init (⟨[1, 2], 1⟩ : Cdist ℝ) [⟨"r", 5⟩, ⟨"foo", 0⟩, ⟨"r", 6⟩]).2.r
      = lastVal "r" (processed [⟨"r", 5⟩, ⟨"foo", 0⟩, ⟨"r", 6⟩]) (⟨[1, 2], 1⟩ : Cdist ℝ).r :=
  have h : (Cdist.Init (⟨[1, 2], 1⟩ : Cdist ℝ)
      [⟨"r", 5⟩, ⟨"foo", 0⟩, ⟨"r", 6⟩]).1 ≠ none := by
    simp [Cdist.Init, Cdist.InitLoop, InitVars.zero]
  ⟨h, Init_failure_state _ _ h⟩

/-- C17: when no parameter is named "r", `Init` on a fresh instance returns an
error and the centre stays empty. -/
theorem Init_radius_mandatory (prms : Prms ℝ) (hr : ∀ p ∈ prms, p.N ≠ "r") :
    (Cdist.Init (Cdist.new : Cdist ℝ) prms).1 ≠ none ∧
    (Cdist.Init (Cdist.new : Cdist ℝ) prms).2.xc = [] := by
  have herr : (Cdist.Init (Cdist.new : Cdist ℝ) prms).1 ≠ none := by
    unfold Cdist.Init
    split
    · simp
    · rename_i l o2 heq
      obtain ⟨-, -, -, -, -, hrl, -⟩ := InitLoop_none prms _ _ _ _ heq
      rw [lastVal_absent "r" prms _ hr] at hrl
      have hlt : o2.r < rtol := by
        rw [hrl]
        exact rtol_pos
      simp [hlt]
  refine ⟨herr, ?_⟩
  rw [Init_error_state _ prms herr, (InitLoop_state prms InitVars.zero _).1]
  rfl

theorem Init_radius_mandatory_witness :
    (∀ p ∈ ([⟨"xc", 1⟩, ⟨"yc", 2⟩] : Prms ℝ), p.N ≠ "r") ∧
    (Cdist.Init (Cdist.new : Cdist ℝ) [⟨"xc", 1⟩, ⟨"yc", 2⟩]).1 ≠ none ∧
    (Cdist.Init (Cdist.new : Cdist ℝ) [⟨"xc", 1⟩, ⟨"yc", 2⟩]).2.xc = [] :=
  have h : ∀ p ∈ ([⟨"xc", 1⟩, ⟨"yc", 2⟩] : Prms ℝ), p.N ≠ "r" := by
    simp
  ⟨h, Init_radius_mandatory _ h⟩

/-- C14: on a successfully initialised instance and a point with as many
components as the centre, no index of `F` is out of range, and no index of `Grad`
is out of range when the output slice is at least as long as the point. -/
theorem no_index_out_of_range (o o1 : Cdist ℝ) (prms : Prms ℝ)
    (hinit : Cdist.Init o prms = (none, o1)) (t : ℝ) (x : List ℝ)
    (hx : x.length = o1.xc.length) :
    Cdist.F Real.sqrt o1 t x ≠ none ∧
    ∀ v : List ℝ, x.length ≤ v.length → Cdist.Grad Real.sqrt o1 v t x ≠ none := by
  have hs := (Init_ok_shape o o1 prms hinit).1
  refine ⟨?_, fun v hv => ?_⟩
  · rw [F_eq_sqDist _ _ _ _ hs hx]
    simp
  · obtain ⟨out, hout, -, -⟩ := Grad_frame Real.sqrt o1 t x v hs hx hv
    rw [hout]
    simp

theorem no_index_out_of_range_witness :
    Cdist.Init (Cdist.new : Cdist ℝ) [⟨"xc", 0⟩, ⟨"yc", 0⟩, ⟨"zc", 1⟩, ⟨"r", 1⟩]
      = (none, ⟨[0, 0, 1], 1⟩) ∧
    ([0, 0, 3] : List ℝ).length = (⟨[0, 0, 1], 1⟩ : Cdist ℝ).xc.length ∧
    Cdist.F Real.sqrt ⟨[0, 0, 1], 1⟩ 0 [0, 0, 3] ≠ none ∧
    ∀ v : List ℝ, ([0, 0, 3] : List ℝ).length ≤ v.length →
      Cdist.Grad Real.sqrt ⟨[0, 0, 1], 1⟩ v 0 [0, 0, 3] ≠ none :=
  have h : Cdist.Init (Cdist.new : Cdist ℝ) [⟨"xc", 0⟩, ⟨"yc", 0⟩, ⟨"zc", 1⟩, ⟨"r", 1⟩]
      = (none, ⟨[0, 0, 1], 1⟩) := by
    simp [Cdist.Init, Cdist.InitLoop, Cdist.new, InitVars.zero, rtol]
    norm_num
  ⟨h, rfl, no_index_out_of_range Cdist.new ⟨[0, 0, 1], 1⟩ _ h 0 [0, 0, 3] rfl⟩

/-- C15: on the instance initialised with xc=0, yc=0, zc=1, r=1, the point
`[0, 0, 3]` and the slice `[9, 9, 9, 9]`, `Grad` keeps the length and the fourth
component, but the third component it writes is `3/2`, which is not the gradient
component `(x[2] - center[2]) / d`. -/
theorem Grad_overwrites_third_component :
    ∃ o1 : Cdist ℝ,
      Cdist.Init (Cdist.new : Cdist ℝ) [⟨"xc", 0⟩, ⟨"yc", 0⟩, ⟨"zc", 1⟩, ⟨"r", 1⟩]
        = (none, o1) ∧
      Cdist.Grad Real.sqrt o1 [9, 9, 9, 9] 0 [0, 0, 3] = some [0, 0, 3 / 2, 9] ∧
      ((3 : ℝ) - 1) / Real.sqrt (sqDist [0, 0, 3] o1.xc) ≠ 3 / 2 := by
  have hd : Real.sqrt (sqDist [0, 0, 3] ([0, 0, 1] : List ℝ)) = 2 := by
    have : sqDist [0, 0, 3] ([0, 0, 1] : List ℝ) = 4 := by
      simp [sqDist, Finset.sum_range_succ]
      norm_num
    rw [this, sqrt_four]
  refine ⟨⟨[0, 0, 1], 1⟩, ?_, ?_, ?_⟩
  · simp [Cdist.Init, Cdist.InitLoop, Cdist.new, InitVars.zero, rtol]
    norm_num
  · rw [Grad_3d_gen]
    norm_num [sqrt_four]
  · simp only [hd]
    norm_num

/-- C18: on a successfully initialised instance and two points with as many
components as the centre, the values of `F` differ by at most the Euclidean
distance between the points. -/
theorem Cdist_F_lipschitz (o o1 : Cdist ℝ) (prms : Prms ℝ)
    (hinit : Cdist.Init o prms = (none, o1)) (t : ℝ) (x y : List ℝ)
    (hx : x.length = o1.xc.length) (hy : y.length = o1.xc.length) :
    ∃ fx fy, Cdist.F Real.sqrt o1 t x = some fx ∧ Cdist.F Real.sqrt o1 t y = some fy ∧
      |fx - fy| ≤ Real.sqrt (sqDist x y) := by
  have hs := (Init_ok_shape o o1 prms hinit).1
  refine ⟨_, _, F_eq_sqDist _ _ _ _ hs hx, F_eq_sqDist _ _ _ _ hs hy, ?_⟩
  rw [sub_sub_sub_cancel_right]
  exact sqDist_lipschitz x y o1.xc hs hx hy

theorem Cdist_F_lipschitz_witness :
    Cdist.Init (Cdist.new : Cdist ℝ) [⟨"xc", 0⟩, ⟨"yc", 0⟩, ⟨"r", 1⟩]
      = (none, ⟨[0, 0], 1⟩) ∧
    ([0, 3] : List ℝ).length = (⟨[0, 0], 1⟩ : Cdist ℝ).xc.length ∧
    ([4, 0] : List ℝ).length = (⟨[0, 0], 1⟩ : Cdist ℝ).xc.length ∧
    ∃ fx fy, Cdist.F Real.sqrt ⟨[0, 0], 1⟩ 0 [0, 3] = some fx ∧
      Cdist.F Real.sqrt ⟨[0, 0], 1⟩ 0 [4, 0] = some fy ∧
      |fx - fy| ≤ Real.sqrt (sqDist [0, 3] [4, 0]) :=
  have h : Cdist.Init (Cdist.new : Cdist ℝ) [⟨"xc", 0⟩, ⟨"yc", 0⟩, ⟨"r", 1⟩]
      = (none, ⟨[0, 0], 1⟩) := by
    simp [Cdist.Init, Cdist.InitLoop, Cdist.new, InitVars.zero, rtol]
    norm_num
  ⟨h, rfl, rfl, Cdist_F_lipschitz Cdist.new ⟨[0, 0], 1⟩ _ h 0 [0, 3] [4, 0] rfl rfl⟩

/-- C19 as stated fails on `float64` values: `Init` with xc=0, yc=0, r=1
succeeds, the point `[2^-60, 0]` is not the centre, and `F` returns `-1`, minus
the radius, there: the exact difference `2^-60 - 1` is rounded to `-1`. -/
theorem F_float_minus_radius_off_centre :
    ∃ o1 : Cdist F64,
      Cdist.Init (Cdist.new : Cdist F64)
          [⟨"xc", F64.fin 0⟩, ⟨"yc", F64.fin 0⟩, ⟨"r", F64.fin 1⟩] = (none, o1) ∧
      o1.xc = [F64.fin 0, F64.fin 0] ∧ F64.neg o1.r = F64.fin (-1) ∧
      [F64.fin (1 / 2 ^ 60), F64.fin 0] ≠ o1.xc ∧
      Cdist.F F64.sqrt o1 (F64.fin 0) [F64.fin (1 / 2 ^ 60), F64.fin 0]
        = some (F64.fin (-1)) := by
  refine ⟨_, Init_F64_unit, rfl, rfl, ?_, F_F64_near_centre _⟩
  simp

/-- C19, amended: in exact real arithmetic, on a successfully initialised instance
and a point with as many components as the centre, `F(t, x)` is at least minus
the radius, and equals minus the radius exactly when the point is the centre. -/
theorem Cdist_F_lower_bound (o o1 : Cdist ℝ) (prms : Prms ℝ)
    (hinit : Cdist.Init o prms = (none, o1)) (t : ℝ) (x : List ℝ)
    (hx : x.length = o1.xc.length) :
    ∃ y, Cdist.F Real.sqrt o1 t x = some y ∧ -o1.r ≤ y ∧ (y = -o1.r ↔ x = o1.xc) := by
  have hs := (Init_ok_shape o o1 prms hinit).1
  refine ⟨_, F_eq_sqDist _ _ _ _ hs hx, ?_, ?_⟩
  · linarith [Real.sqrt_nonneg (sqDist x o1.xc)]
  · rw [← sqDist_eq_zero_iff x o1.xc hs hx, ← Real.sqrt_eq_zero (sqDist_nonneg x o1.xc)]
    constructor
    · intro h
      linarith
    · intro h
      rw [h]
      ring

theorem Cdist_F_lower_bound_witness :
    Cdist.Init (Cdist.new : Cdist ℝ) [⟨"xc", 1⟩, ⟨"yc", 1⟩, ⟨"r", 2⟩]
      = (none, ⟨[1, 1], 2⟩) ∧
    ([1, 1] : List ℝ).length = (⟨[1, 1], 2⟩ : Cdist ℝ).xc.length ∧
    ∃ y, Cdist.F Real.sqrt ⟨[1, 1], 2⟩ 0 [1, 1] = some y ∧
      -(⟨[1, 1], 2⟩ : Cdist ℝ).r ≤ y ∧
      (y = -(⟨[1, 1], 2⟩ : Cdist ℝ).r ↔ ([1, 1] : List ℝ) = (⟨[1, 1], 2⟩ : Cdist ℝ).xc) :=
  have h : Cdist.Init (Cdist.new : Cdist ℝ) [⟨"xc", 1⟩, ⟨"yc", 1⟩, ⟨"r", 2⟩]
      = (none, ⟨[1, 1], 2⟩) := by
    simp [Cdist.Init, Cdist.InitLoop, Cdist.new, InitVars.zero, rtol]
    norm_num
  ⟨h, rfl, Cdist_F_lower_bound Cdist.new ⟨[1, 1], 2⟩ _ h 0 [1, 1] rfl⟩

end GoslFun
